import Mathlib

/-!
Shallow embedding of the batch LLM-as-judge evaluation pipeline
(`submit_truthqa_batches.py`, `poll_truthqa_batches.py`, `poll_truth_p2.py`,
`utils.py`).  Pure data transformations are embedded as Lean functions over
`List Char` (Python `str`) and a structural Python-value type `PyVal`
(JSON-decoded data).  Fallible Python code is embedded in `Except PyExn`.
File/network I/O and the OpenAI client are external collaborators and are
modelled by passing their decoded payloads as explicit arguments.
Case-insensitive literal matching follows CPython's `re.IGNORECASE` Unicode
rules for the ASCII pattern literals used here: a subject character matches
when its simple lowercase equals the literal (so İ U+0130 matches i and the
Kelvin sign U+212A matches k) or when the pair is in sre's extra-equivalences
table (i matches dotless ı U+0131, s matches long ſ U+017F); in particular
the capture group can capture non-ASCII text.  The character classes `\s`
and `\w` and the mapping `str.lower` are modelled over the ASCII range plus
the reachable special cases; universal statements about the regex layer are
made for ASCII inputs, on which these classes coincide with CPython's.
-/

/-- Python exceptions that the embedded code fragments can raise. -/
inductive PyExn where
  | valueError
  | keyError
  | typeError
  | attributeError
  | indexError
  | jsonDecodeError
deriving DecidableEq, Repr

/- Named characters, kept out of literals. -/
def chQuote : Char := Char.ofNat 34

def chApos : Char := Char.ofNat 39

def chTick : Char := Char.ofNat 96

def chBackslash : Char := Char.ofNat 92

def chLBrace : Char := Char.ofNat 123

def chRBrace : Char := Char.ofNat 125

def chBar : Char := Char.ofNat 124

def chBOM : Char := Char.ofNat 0xFEFF

def chArrow : Char := Char.ofNat 0x2192

def chTab : Char := Char.ofNat 9

def chLF : Char := Char.ofNat 10

def chCR : Char := Char.ofNat 13

def chVT : Char := Char.ofNat 11

def chFF : Char := Char.ofNat 12

/-- Python regex class `\s` (ASCII range). -/
def isPySpace (c : Char) : Bool :=
  c == ' ' || c == chTab || c == chLF || c == chCR || c == chVT || c == chFF

/-- Python regex class `\w` (ASCII range): letters, digits, underscore. -/
def isWordChar (c : Char) : Bool :=
  c.isAlphanum || c == '_'

/-- The decoration class of the arrow regex: the character set *_backtick~ . -/
def isDecoChar (c : Char) : Bool :=
  c == '*' || c == '_' || c == chTick || c == '~'

/-- The quote class of the label-line regex: single quote, double quote, backtick. -/
def isQuoteChar (c : Char) : Bool :=
  c == chApos || c == chQuote || c == chTick

/-- Simple (single-character) Unicode lowercase, modelled exactly where the
result is an ASCII letter: A–Z map down by 32, İ U+0130 maps to i, the
Kelvin sign U+212A maps to k, and no other character lowers into ASCII, so
identity elsewhere is faithful for comparison against an ASCII literal. -/
def simpleLowerChar (c : Char) : Char :=
  if c.toNat = 0x130 then 'i'
  else if c.toNat = 0x212A then 'k'
  else if 65 ≤ c.toNat ∧ c.toNat ≤ 90 then Char.ofNat (c.toNat + 32)
  else c

/-- CPython `re.IGNORECASE` (Unicode) match of subject character `c` against
a lowercase ASCII pattern literal `w`: the subject's simple lowercase equals
the literal, or the pair is in sre's extra-equivalences table — for ASCII
literals these are i ~ dotless ı U+0131 and s ~ long ſ U+017F. -/
def reCharMatchCI (w c : Char) : Bool :=
  simpleLowerChar c == w ||
  (w == 'i' && c == Char.ofNat 0x131) ||
  (w == 's' && c == Char.ofNat 0x17F)

/-- Python `str.lower` on one character: ı and other already-lower letters
stay themselves, the Kelvin sign lowers to k, and İ U+0130 lowers to the
two-character sequence i + combining dot above (non-ASCII case pairs other
than the ones reachable by the keyword captures keep the identity). -/
def pyLowerChar (c : Char) : List Char :=
  if c.toNat = 0x130 then ['i', Char.ofNat 0x307] else [simpleLowerChar c]

/-- Python `str.lower`. -/
def pyLower : List Char → List Char
  | [] => []
  | c :: cs => pyLowerChar c ++ pyLower cs

/-- Python `str.strip()` with no argument: whitespace removed from both ends. -/
def pyStrip (s : List Char) : List Char :=
  ((s.dropWhile isPySpace).reverse.dropWhile isPySpace).reverse

/-- Python `str.lstrip("﻿")`: all leading BOM characters removed. -/
def dropBOM (s : List Char) : List Char :=
  s.dropWhile (fun c => c == chBOM)

/-- Case-insensitive literal match at the head of the input, with CPython's
`re.IGNORECASE` Unicode rules per character.  Returns the matched characters
(in their original form) and the remaining input. -/
def matchLitCI : List Char → List Char → Option (List Char × List Char)
  | [], s => some ([], s)
  | _ :: _, [] => none
  | w :: ws, c :: cs =>
    if reCharMatchCI w c then
      match matchLitCI ws cs with
      | some (m, rest) => some (c :: m, rest)
      | none => none
    else none

def TRUTHFUL : List Char := "truthful".data

def HALLUCINATED : List Char := "hallucinated".data

def LABELWORD : List Char := "label".data

/-- Word boundary after a word character: end of input or a non-word char. -/
def boundaryOk : List Char → Bool
  | [] => true
  | c :: _ => !(isWordChar c)

/-- Word boundary before a word character: start of input or a non-word char. -/
def prevBoundary : Option Char → Bool
  | none => true
  | some c => !(isWordChar c)

/-- The group `(truthful|hallucinated)\b` of the three label regexes: either
keyword, case-insensitively, followed by a word boundary. -/
def keywordAt (s : List Char) : Option (List Char) :=
  match matchLitCI TRUTHFUL s with
  | some (m, r) => if boundaryOk r then some m else none
  | none =>
    match matchLitCI HALLUCINATED s with
    | some (m, r) => if boundaryOk r then some m else none
    | none => none

/-- `re.search` driver: try the pattern at each position from left to right,
remembering the previous character for word-boundary tests. -/
def searchAux (tryAt : Option Char → List Char → Option (List Char)) :
    Option Char → List Char → Option (List Char)
  | prev, [] => tryAt prev []
  | prev, c :: cs =>
    match tryAt prev (c :: cs) with
    | some m => some m
    | none => searchAux tryAt (some c) cs

/-- Matcher for the arrow regex (arrow, `\s*`, decoration class `*`, `\s*`,
keyword group) at one position. -/
def arrowTryAt (_prev : Option Char) (s : List Char) : Option (List Char) :=
  match s with
  | [] => none
  | c :: rest =>
    if c == chArrow then
      keywordAt (((rest.dropWhile isPySpace).dropWhile isDecoChar).dropWhile isPySpace)
    else none

/-- Matcher for the bare-keyword regex `\b(truthful|hallucinated)\b` at one
position. -/
def wordTryAt (prev : Option Char) (s : List Char) : Option (List Char) :=
  if prevBoundary prev then keywordAt s else none

/-- Matcher for the label-line regex
`\blabel\s*[:=]\s*[quotes]*\s*(truthful|hallucinated)\b` at one position. -/
def labelTryAt (prev : Option Char) (s : List Char) : Option (List Char) :=
  if prevBoundary prev then
    match matchLitCI LABELWORD s with
    | some (_, r) =>
      match r.dropWhile isPySpace with
      | [] => none
      | c :: r2 =>
        if c == ':' || c == '=' then
          keywordAt (((r2.dropWhile isPySpace).dropWhile isQuoteChar).dropWhile isPySpace)
        else none
    | none => none
  else none

def searchArrow (s : List Char) : Option (List Char) :=
  searchAux arrowTryAt none s

def searchWord (s : List Char) : Option (List Char) :=
  searchAux wordTryAt none s

def searchLabelLine (s : List Char) : Option (List Char) :=
  searchAux labelTryAt none s

/-- `extract_label` of `poll_truthqa_batches.py` (lines 55-74): the arrow
regex, then the bare-keyword regex; `group(1).lower()` on a match, `None`
otherwise. -/
def extract_label_batches (evalTxt : List Char) : Option (List Char) :=
  match searchArrow evalTxt with
  | some m => some (pyLower m)
  | none =>
    match searchWord evalTxt with
    | some m => some (pyLower m)
    | none => none

/-- Structural model of decoded Python/JSON values.  Fractional or exponent
number literals are kept symbolically (`float lit`): no claim depends on
floating-point arithmetic, only on equality of identically produced values. -/
inductive PyVal where
  | str (s : List Char)
  | int (n : Int)
  | bool (b : Bool)
  | null
  | float (lit : List Char)
  | arr (xs : List PyVal)
  | obj (fields : List (List Char × PyVal))
deriving Repr

mutual

def PyVal.beq : PyVal → PyVal → Bool
  | .str a, .str b => a == b
  | .int a, .int b => a == b
  | .bool a, .bool b => a == b
  | .null, .null => true
  | .float a, .float b => a == b
  | .arr a, .arr b => PyVal.beqList a b
  | .obj a, .obj b => PyVal.beqFields a b
  | _, _ => false

def PyVal.beqList : List PyVal → List PyVal → Bool
  | [], [] => true
  | x :: xs, y :: ys => PyVal.beq x y && PyVal.beqList xs ys
  | _, _ => false

def PyVal.beqFields : List (List Char × PyVal) → List (List Char × PyVal) → Bool
  | [], [] => true
  | (k1, v1) :: xs, (k2, v2) :: ys => k1 == k2 && PyVal.beq v1 v2 && PyVal.beqFields xs ys
  | _, _ => false

end

/-- JSON whitespace characters (what `json.loads` skips between tokens). -/
def isJsonWs (c : Char) : Bool :=
  c == ' ' || c == chTab || c == chLF || c == chCR

def hexVal (c : Char) : Option Nat :=
  if c.isDigit then some (c.toNat - 48)
  else if 'a' ≤ c ∧ c ≤ 'f' then some (c.toNat - 87)
  else if 'A' ≤ c ∧ c ≤ 'F' then some (c.toNat - 55)
  else none

/-- Case-sensitive literal match at the head of the input. -/
def matchLit : List Char → List Char → Option (List Char)
  | [], s => some s
  | _ :: _, [] => none
  | w :: ws, c :: cs => if c == w then matchLit ws cs else none

def unescapeChar (e : Char) : Option Char :=
  if e == chQuote then some chQuote
  else if e == chBackslash then some chBackslash
  else if e == '/' then some '/'
  else if e == 'b' then some (Char.ofNat 8)
  else if e == 'f' then some chFF
  else if e == 'n' then some chLF
  else if e == 'r' then some chCR
  else if e == 't' then some chTab
  else none

/-- Body of a JSON string after the opening quote: content and remainder.
Raw control characters are rejected (`json.loads` default strict mode). -/
def parseJStringAux : List Char → Option (List Char × List Char)
  | [] => none
  | c :: rest =>
    if c == chQuote then some ([], rest)
    else if c == chBackslash then
      match rest with
      | [] => none
      | e :: rest2 =>
        if e == 'u' then
          match rest2 with
          | h1 :: h2 :: h3 :: h4 :: rest3 =>
            match hexVal h1, hexVal h2, hexVal h3, hexVal h4 with
            | some a, some b, some c2, some d =>
              match parseJStringAux rest3 with
              | some (cs, r2) => some (Char.ofNat (((a * 16 + b) * 16 + c2) * 16 + d) :: cs, r2)
              | none => none
            | _, _, _, _ => none
          | _ => none
        else
          match unescapeChar e with
          | some d =>
            match parseJStringAux rest2 with
            | some (cs, r2) => some (d :: cs, r2)
            | none => none
          | none => none
    else if c.toNat < 32 then none
    else
      match parseJStringAux rest with
      | some (cs, r2) => some (c :: cs, r2)
      | none => none

def digitsToNatAcc : Nat → List Char → Nat
  | acc, [] => acc
  | acc, c :: cs => digitsToNatAcc (10 * acc + (c.toNat - 48)) cs

/-- Optional exponent part of a JSON number; consumes nothing if the input
does not start with a complete, valid exponent. -/
def parseExpOpt (s : List Char) : List Char × List Char :=
  match s with
  | e :: r =>
    if e == 'e' || e == 'E' then
      match r with
      | c :: cs =>
        let (sgn, r1) := if c == '+' || c == '-' then ([c], cs) else (([] : List Char), r)
        let ds := r1.takeWhile Char.isDigit
        if ds.isEmpty then ([], s)
        else (e :: (sgn ++ ds), r1.dropWhile Char.isDigit)
      | [] => ([], s)
    else ([], s)
  | [] => ([], s)

/-- JSON number.  Plain integers become `PyVal.int`; numbers with a fraction
or exponent become `PyVal.float` carrying their literal characters. -/
def parseJNumber (s : List Char) : Option (PyVal × List Char) :=
  let (neg, s1) :=
    match s with
    | c :: cs => if c == '-' then (true, cs) else (false, s)
    | [] => (false, s)
  match s1 with
  | [] => none
  | c0 :: _ =>
    if !c0.isDigit then none
    else
      let ds := s1.takeWhile Char.isDigit
      let s2 := s1.dropWhile Char.isDigit
      if ds.length > 1 && ds.head? == some '0' then none
      else
        let intLit : List Char := (if neg then ['-'] else []) ++ ds
        let intVal : Int :=
          if neg then -(digitsToNatAcc 0 ds : Int) else (digitsToNatAcc 0 ds : Int)
        match s2 with
        | '.' :: r =>
          let fs := r.takeWhile Char.isDigit
          if fs.isEmpty then none
          else
            let r2 := r.dropWhile Char.isDigit
            let (el, r3) := parseExpOpt r2
            some (.float (intLit ++ '.' :: fs ++ el), r3)
        | c :: r =>
          if c == 'e' || c == 'E' then
            match parseExpOpt (c :: r) with
            | ([], _) => some (.int intVal, c :: r)
            | (el, r3) => some (.float (intLit ++ el), r3)
          else some (.int intVal, c :: r)
        | [] => some (.int intVal, [])

mutual

def parseJValue : Nat → List Char → Option (PyVal × List Char)
  | 0, _ => none
  | fuel + 1, s =>
    match s with
    | [] => none
    | c :: rest =>
      if c == chQuote then
        match parseJStringAux rest with
        | some (cs, r) => some (.str cs, r)
        | none => none
      else if c == chLBrace then
        let r1 := rest.dropWhile isJsonWs
        match r1 with
        | c2 :: r2 => if c2 == chRBrace then some (.obj [], r2) else parseJMembers fuel r1 []
        | [] => none
      else if c == '[' then
        let r1 := rest.dropWhile isJsonWs
        match r1 with
        | c2 :: r2 => if c2 == ']' then some (.arr [], r2) else parseJElems fuel r1 []
        | [] => none
      else if c == 't' then
        match matchLit ("true".data) s with
        | some r => some (.bool true, r)
        | none => none
      else if c == 'f' then
        match matchLit ("false".data) s with
        | some r => some (.bool false, r)
        | none => none
      else if c == 'n' then
        match matchLit ("null".data) s with
        | some r => some (.null, r)
        | none => none
      else parseJNumber s

def parseJMembers : Nat → List Char → List (List Char × PyVal) → Option (PyVal × List Char)
  | 0, _, _ => none
  | fuel + 1, s, acc =>
    match s with
    | c :: rest =>
      if c == chQuote then
        match parseJStringAux rest with
        | some (k, r1) =>
          match r1.dropWhile isJsonWs with
          | c2 :: r2 =>
            if c2 == ':' then
              match parseJValue fuel (r2.dropWhile isJsonWs) with
              | some (v, r3) =>
                match r3.dropWhile isJsonWs with
                | c3 :: r4 =>
                  if c3 == ',' then parseJMembers fuel (r4.dropWhile isJsonWs) (acc ++ [(k, v)])
                  else if c3 == chRBrace then some (.obj (acc ++ [(k, v)]), r4)
                  else none
                | [] => none
              | none => none
            else none
          | [] => none
        | none => none
      else none
    | [] => none

def parseJElems : Nat → List Char → List PyVal → Option (PyVal × List Char)
  | 0, _, _ => none
  | fuel + 1, s, acc =>
    match parseJValue fuel s with
    | some (v, r1) =>
      match r1.dropWhile isJsonWs with
      | c :: r2 =>
        if c == ',' then parseJElems fuel (r2.dropWhile isJsonWs) (acc ++ [v])
        else if c == ']' then some (.arr (acc ++ [v]), r2)
        else none
      | [] => none
    | none => none

end

/-- Python `json.loads`, modelled for objects, arrays, strings, integers,
booleans, null, and (symbolic) fraction/exponent numbers.  `NaN`, `Infinity`
and digit-group underscores are not modelled; the nesting fuel
`s.length + 1` exceeds any reachable nesting depth.  Returns `none` exactly
where `json.loads` raises `JSONDecodeError`. -/
def jsonLoads (s : List Char) : Option PyVal :=
  match parseJValue (s.length + 1) (s.dropWhile isJsonWs) with
  | some (v, rest) => if (rest.dropWhile isJsonWs).isEmpty then some v else none
  | none => none

/-- Lookup in a decoded JSON object.  Python builds a `dict`, where a later
duplicate key overwrites an earlier one, so the last binding wins. -/
def lookupLast (fields : List (List Char × PyVal)) (k : List Char) : Option PyVal :=
  (fields.reverse.find? (fun kv => kv.1 == k)).map (·.2)

/-- Fall-through regex part of `extract_label` in `poll_truth_p2.py`:
the label-line regex, then the arrow regex, then `None`. -/
def p2Regexes (evalTxt : List Char) : Except PyExn (Option (List Char)) :=
  match searchLabelLine evalTxt with
  | some m => .ok (some (pyLower m))
  | none =>
    match searchArrow evalTxt with
    | some m => .ok (some (pyLower m))
    | none => .ok none

/-- `extract_label` of `poll_truth_p2.py` (lines 37-61): try `json.loads`
(catching only `JSONDecodeError`); on a dict with a "label" key return
`value.strip().lower()` — an `AttributeError` escapes when the value is not
a string; otherwise fall through to the label-line regex, then the arrow
regex, then `None`.  Note there is no bare-keyword fallback here. -/
def extract_label_p2 (evalTxt : List Char) : Except PyExn (Option (List Char)) :=
  match jsonLoads evalTxt with
  | some (.obj fields) =>
    match lookupLast fields LABELWORD with
    | some (.str v) => .ok (some (pyLower (pyStrip v)))
    | some _ => .error .attributeError
    | none => p2Regexes evalTxt
  | some _ => p2Regexes evalTxt
  | none => p2Regexes evalTxt

/- Integer/string conversions: Python `str(int)` and `int(str)`. -/
def digitChar : Nat → Char
  | 0 => '0'
  | 1 => '1'
  | 2 => '2'
  | 3 => '3'
  | 4 => '4'
  | 5 => '5'
  | 6 => '6'
  | 7 => '7'
  | 8 => '8'
  | 9 => '9'
  | _ => '?'

def natDigitsAux : Nat → Nat → List Nat
  | 0, _ => []
  | fuel + 1, n => if n = 0 then [] else (n % 10) :: natDigitsAux fuel (n / 10)

/-- Base-10 digits of a natural number, least significant first. -/
def natDigits (n : Nat) : List Nat := natDigitsAux n n

def pyNatToStr (n : Nat) : List Char :=
  if n = 0 then ['0'] else ((natDigits n).reverse.map digitChar)

/-- Python `str` applied to an `int`. -/
def pyIntToStr (n : Int) : List Char :=
  if n < 0 then '-' :: pyNatToStr n.natAbs else pyNatToStr n.toNat

def digitsToNatOpt : Nat → List Char → Option Nat
  | acc, [] => some acc
  | acc, c :: cs => if c.isDigit then digitsToNatOpt (10 * acc + (c.toNat - 48)) cs else none

def pyStrToIntCore (c : Char) (rest : List Char) : Except PyExn Int :=
  if c == '-' then
    if rest.isEmpty then .error .valueError
    else
      match digitsToNatOpt 0 rest with
      | some n => .ok (-(n : Int))
      | none => .error .valueError
  else if c == '+' then
    if rest.isEmpty then .error .valueError
    else
      match digitsToNatOpt 0 rest with
      | some n => .ok (n : Int)
      | none => .error .valueError
  else
    match digitsToNatOpt 0 (c :: rest) with
    | some n => .ok (n : Int)
    | none => .error .valueError

/-- Python `int(str)`: surrounding whitespace stripped, an optional sign,
then at least one digit (digit-group underscores are not modelled). -/
def pyStrToInt (s : List Char) : Except PyExn Int :=
  match pyStrip s with
  | [] => .error .valueError
  | c :: rest => pyStrToIntCore c rest

/-- Python `str.split(sep)` for a one-character separator: split at every
occurrence, keeping empty pieces. -/
def pySplit (sep : Char) : List Char → List (List Char)
  | [] => [[]]
  | c :: cs =>
    if c == sep then [] :: pySplit sep cs
    else
      match pySplit sep cs with
      | [] => [[c]]
      | t :: ts => (c :: t) :: ts

/-- The correlation id written by the submitter (line 183 of
`submit_truthqa_batches.py`): the f-string `qid|model|setting`. -/
def encodeCustomId (qid : Int) (model setting : List Char) : List Char :=
  pyIntToStr qid ++ chBar :: (model ++ chBar :: setting)

/-- What the merge loops do with a correlation id (line 135 of
`poll_truthqa_batches.py`): unpack `custom_id.split("|")` into exactly three
names (`ValueError` otherwise), then `int(qid)`. -/
def decodeCustomId (cid : List Char) : Except PyExn (Int × List Char × List Char) :=
  match pySplit chBar cid with
  | [q, m, s] =>
    match pyStrToInt q with
    | .ok n => .ok (n, m, s)
    | .error e => .error e
  | _ => .error .valueError

def valLE : List Nat → Nat
  | [] => 0
  | d :: ds => d + 10 * valLE ds

/- Subscripting, membership and iteration on decoded Python values. -/
/-- Python subscript `v["key"]`: field lookup on a dict (`KeyError` when the
key is missing), `TypeError` on any other JSON value. -/
def pyGetStr (v : PyVal) (k : List Char) : Except PyExn PyVal :=
  match v with
  | .obj fields =>
    match lookupLast fields k with
    | some x => .ok x
    | none => .error .keyError
  | _ => .error .typeError

def listStartsWith : List Char → List Char → Bool
  | [], _ => true
  | _ :: _, [] => false
  | n :: ns, h :: hs => n == h && listStartsWith ns hs

/-- Substring test (Python `needle in hay` on strings). -/
def listHasSub (needle : List Char) : List Char → Bool
  | [] => needle.isEmpty
  | h :: hs => listStartsWith needle (h :: hs) || listHasSub needle hs

/-- Python `x in v` for a string `x`: key test on dicts, element test on
lists, substring test on strings, `TypeError` otherwise. -/
def pyInStr (x : List Char) (v : PyVal) : Except PyExn Bool :=
  match v with
  | .obj fields => .ok (fields.any (fun kv => kv.1 == x))
  | .arr xs => .ok (xs.any (PyVal.beq (.str x)))
  | .str s => .ok (listHasSub x s)
  | _ => .error .typeError

/-- Python `for x in v`: list elements, string characters, dict keys;
`TypeError` otherwise. -/
def pyIter (v : PyVal) : Except PyExn (List PyVal) :=
  match v with
  | .arr xs => .ok xs
  | .str s => .ok (s.map (fun c => .str [c]))
  | .obj fields => .ok (fields.map (fun kv => .str kv.1))
  | _ => .error .typeError

/-- One `top_logprobs` alternative as `normalise_logprobs` rebuilds it.  The
source (`utils.py` line 14) writes the literal list `["logprob"]` as the
"logprob" value — `alt["logprob"]` is evidently what was meant, but the
embedding is faithful to the code as written. -/
def cleanAlt (alt : PyVal) : Except PyExn PyVal :=
  match pyGetStr alt ("token".data) with
  | .error e => .error e
  | .ok tok => .ok (.obj [("token".data, tok), ("logprob".data, .arr [.str ("logprob".data)])])

def cleanAlts : List PyVal → Except PyExn (List PyVal)
  | [] => .ok []
  | a :: rest =>
    match cleanAlt a with
    | .error e => .error e
    | .ok c =>
      match cleanAlts rest with
      | .error e => .error e
      | .ok cs => .ok (c :: cs)

/-- One `content` entry as `normalise_logprobs` rebuilds it (`utils.py`
lines 9-17). -/
def cleanEntry (entry : PyVal) : Except PyExn PyVal :=
  match pyGetStr entry ("token".data) with
  | .error e => .error e
  | .ok tok =>
    match pyGetStr entry ("logprob".data) with
    | .error e => .error e
    | .ok lp =>
      match pyGetStr entry ("top_logprobs".data) with
      | .error e => .error e
      | .ok tops =>
        match pyIter tops with
        | .error e => .error e
        | .ok alts =>
          match cleanAlts alts with
          | .error e => .error e
          | .ok cas =>
            .ok (.obj [("token".data, tok), ("logprob".data, lp), ("top_alts".data, .arr cas)])

def cleanEntries : List PyVal → Except PyExn (List PyVal)
  | [] => .ok []
  | e :: rest =>
    match cleanEntry e with
    | .error exn => .error exn
    | .ok c =>
      match cleanEntries rest with
      | .error exn => .error exn
      | .ok cs => .ok (c :: cs)

/-- `normalise_logprobs` of `utils.py` (lines 4-18): return `[]` when
"content" is absent, otherwise rebuild each content entry. -/
def normalise_logprobs (lp : PyVal) : Except PyExn PyVal :=
  match pyInStr ("content".data) lp with
  | .error e => .error e
  | .ok false => .ok (.arr [])
  | .ok true =>
    match pyGetStr lp ("content".data) with
    | .error e => .error e
    | .ok cont =>
      match pyIter cont with
      | .error e => .error e
      | .ok entries =>
        match cleanEntries entries with
        | .error e => .error e
        | .ok cs => .ok (.arr cs)

mutual

/-- Python `repr` of a decoded JSON value (string escaping inside containers
is approximated; container cases never occur in well-formed key fields). -/
def pyReprV : PyVal → List Char
  | .str s => chApos :: (s ++ [chApos])
  | .int n => pyIntToStr n
  | .bool true => "True".data
  | .bool false => "False".data
  | .null => "None".data
  | .float lit => lit
  | .arr xs => '[' :: (pyReprList xs ++ [']'])
  | .obj fs => chLBrace :: (pyReprFields fs ++ [chRBrace])

def pyReprList : List PyVal → List Char
  | [] => []
  | x :: rest =>
    match rest with
    | [] => pyReprV x
    | _ :: _ => pyReprV x ++ (", ".data ++ pyReprList rest)

def pyReprFields : List (List Char × PyVal) → List Char
  | [] => []
  | (k, v) :: rest =>
    match rest with
    | [] => chApos :: (k ++ [chApos]) ++ (": ".data ++ pyReprV v)
    | _ :: _ =>
      chApos :: (k ++ [chApos]) ++ (": ".data ++ pyReprV v) ++ (", ".data ++ pyReprFields rest)

end

/-- Python `str()` of a decoded JSON value. -/
def pyStr (v : PyVal) : List Char :=
  match v with
  | .str s => s
  | _ => pyReprV v

/- The three dedup-index builders (`load_done`). -/
/-- One key as `load_done` of the two pollers computes it (the code is
identical in `poll_truthqa_batches.py` lines 40-52 and `poll_truth_p2.py`
lines 22-34): `(rec["Model"], rec["Temperature"], str(rec["Question_ind"]))`. -/
def pollRecKey (v : PyVal) : Except PyExn (PyVal × PyVal × List Char) :=
  match pyGetStr v ("Model".data) with
  | .error e => .error e
  | .ok m =>
    match pyGetStr v ("Temperature".data) with
    | .error e => .error e
    | .ok t =>
      match pyGetStr v ("Question_ind".data) with
      | .error e => .error e
      | .ok q => .ok (m, t, pyStr q)

/-- `load_done` of the pollers: every line goes through `json.loads` with no
try/except, so a malformed line raises and aborts the process.  The Python
`set` is modelled as a list; only membership in it is ever consumed. -/
def load_done_poll : List (List Char) → List (PyVal × PyVal × List Char) →
    Except PyExn (List (PyVal × PyVal × List Char))
  | [], acc => .ok acc
  | line :: rest, acc =>
    match jsonLoads line with
    | none => .error .jsonDecodeError
    | some v =>
      match pollRecKey v with
      | .error e => .error e
      | .ok k => load_done_poll rest (acc ++ [k])

/-- One key as `load_done` of the submitter computes it
(`submit_truthqa_batches.py` lines 128-140):
`(obj["Model"], obj["Temperature"], obj["Question_ind"])`. -/
def submitRecKey (v : PyVal) : Except PyExn (PyVal × PyVal × PyVal) :=
  match pyGetStr v ("Model".data) with
  | .error e => .error e
  | .ok m =>
    match pyGetStr v ("Temperature".data) with
    | .error e => .error e
    | .ok t =>
      match pyGetStr v ("Question_ind".data) with
      | .error e => .error e
      | .ok q => .ok (m, t, q)

/-- `load_done` of the submitter: a line that fails `json.loads` is skipped
(`except json.JSONDecodeError: continue`), but any other failure — a missing
key (`KeyError`) or a non-dict line (`TypeError`) — still raises. -/
def load_done_submit : List (List Char) → List (PyVal × PyVal × PyVal) →
    Except PyExn (List (PyVal × PyVal × PyVal))
  | [], acc => .ok acc
  | line :: rest, acc =>
    match jsonLoads line with
    | none => load_done_submit rest acc
    | some v =>
      match submitRecKey v with
      | .error e => .error e
      | .ok k => load_done_submit rest (acc ++ [k])

/- The merge loop of the poller (`poll_truthqa_batches.py` lines 132-166). -/
/-- One decoded answers-file row, with the fields the merger consumes
(`row["temperature"]`, `row["answer"]`). -/
structure AnswerRow where
  temperature : PyVal
  answer : PyVal
deriving Repr

/-- Context fixed for a whole merge run: the answers index (a Python dict
comprehension keyed by `(qid, model, setting)`, where a later duplicate row
overwrites an earlier one) and the dataset's category list
(`qid_to_category`, keyed by enumeration index). -/
structure MergeCtx where
  answersIndex : List ((Int × List Char × List Char) × AnswerRow)
  categories : List (List Char)

/-- `answers_index[(int(qid), model, setting)]`: dict lookup, last binding
wins. -/
def dictLookup (idx : List ((Int × List Char × List Char) × AnswerRow))
    (k : Int × List Char × List Char) : Option AnswerRow :=
  (idx.reverse.find? (fun kv => kv.1 == k)).map (·.2)

/-- `qid_to_category.get(int(qid))`: `dict.get` returns `None` for an absent
key; the keys are the enumeration indices `0, 1, …`. -/
def categoryGet (cats : List (List Char)) (n : Int) : Option (List Char) :=
  if 0 ≤ n then cats[n.toNat]? else none

/-- One decoded line of the downloaded batch output, holding the fields the
merge loop navigates to: `rec["custom_id"]`,
`rec["response"]["body"]["choices"][0]["message"]["content"]` and the
corresponding `["logprobs"]`.  That navigation is plumbing over well-formed
API output and is modelled structurally. -/
structure BatchLine where
  custom_id : List Char
  content : List Char
  logprobs : PyVal
deriving Repr

/-- The record appended per new evaluation (lines 152-165).  Field names
mirror the JSON keys `Question_ind`, `Evaluation`, `Model`, `Temperature`,
`Candidate Answer`, `judge_tokens`, `classification`, `Category`. -/
structure EvalRec where
  question_ind : Int
  evaluation : List Char
  model : List Char
  temperature : PyVal
  candidate : PyVal
  judge_tokens : PyVal
  classification : List Char
  category : Option (List Char)
deriving Repr

/-- The dedup key of a batch result as the merge loop computes it (line 137):
`(model, row["temperature"], qid)` with `qid` still the string from the
correlation id. -/
abbrev MergeKey := PyVal × PyVal × List Char

def keyBeq (a b : MergeKey) : Bool :=
  PyVal.beq a.1 b.1 && PyVal.beq a.2.1 b.2.1 && (a.2.2 == b.2.2)

/-- Python `key in already_done`. -/
def keyMem (k : MergeKey) (done : List MergeKey) : Bool :=
  done.any (keyBeq k)

/-- The key `load_done` recovers from a record the merge loop wrote:
`(rec["Model"], rec["Temperature"], str(rec["Question_ind"]))`.  Writing with
`json.dumps` and re-reading with `json.loads` round-trips these field
values, so the key is computed directly on the structural record. -/
def recDoneKey (r : EvalRec) : MergeKey :=
  (.str r.model, r.temperature, pyIntToStr r.question_ind)

/-- The dedup index `load_done` builds from a structurally modelled log. -/
def doneKeys (log : List EvalRec) : List MergeKey :=
  log.map recDoneKey

inductive Outcome where
  | skip
  | add (r : EvalRec)
deriving Repr

/-- One iteration of the merge loop (lines 133-166), up to the file append:
unpack the correlation id split (`ValueError` unless exactly three parts),
`int(qid)` (`ValueError` when not numeric), index the answers (`KeyError`
when absent), skip when the key is already done, otherwise strip the judge
text, normalise the log-probabilities, extract the label, skip when it is
`None`, and otherwise build the record to append.  The done set is consulted
but never extended here. -/
def processLine (ctx : MergeCtx) (done : List MergeKey) (line : BatchLine) :
    Except PyExn Outcome :=
  match pySplit chBar line.custom_id with
  | [q, m, s] =>
    match pyStrToInt q with
    | .error e => .error e
    | .ok n =>
      match dictLookup ctx.answersIndex (n, m, s) with
      | none => .error .keyError
      | some row =>
        if keyMem (.str m, row.temperature, q) done then .ok .skip
        else
          match normalise_logprobs line.logprobs with
          | .error e => .error e
          | .ok judge =>
            let evalTxt := pyStrip (dropBOM line.content)
            match extract_label_batches evalTxt with
            | none => .ok .skip
            | some lab =>
              .ok (.add {
                question_ind := n
                evaluation := evalTxt
                model := m
                temperature := row.temperature
                candidate := row.answer
                judge_tokens := judge
                classification := lab
                category := categoryGet ctx.categories n })
  | _ => .error .valueError

/-- Result of the merge loop; on an uncaught exception the appends already
made persist in the file, so the error case carries the partial log. -/
inductive MergeResult where
  | ok (log : List EvalRec) (added : Nat)
  | err (e : PyExn) (log : List EvalRec) (added : Nat)
deriving Repr

/-- The whole merge loop over the downloaded batch lines.  `already_done` is
loaded once and fixed for the entire run — the loop never adds to it — and
each appended record goes to the end of the log with `added` incremented. -/
def mergeRun (ctx : MergeCtx) (done : List MergeKey) :
    List BatchLine → List EvalRec → Nat → MergeResult
  | [], log, a => .ok log a
  | l :: ls, log, a =>
    match processLine ctx done l with
    | .error e => .err e log a
    | .ok .skip => mergeRun ctx done ls log a
    | .ok (.add r) => mergeRun ctx done ls (log ++ [r]) (a + 1)

/- The polling loop and the poller top level. -/
/-- The terminal statuses of the polling loop (line 110). -/
def isTerminal (s : List Char) : Bool :=
  s == "completed".data || s == "failed".data || s == "expired".data || s == "canceled".data

/-- The polling loop (lines 108-117): keep retrieving the job status until a
terminal one appears; the successive values returned by
`client.batches.retrieve` are given as a list.  `none` means the loop is
still running after these polls (and nothing has been written). -/
def pollLoop : List (List Char) → Option (List Char)
  | [] => none
  | s :: rest => if isTerminal s then some s else pollLoop rest

inductive PollerResult where
  | polling (log : List EvalRec)
  | aborted (status : List Char) (log : List EvalRec)
  | crashed (e : PyExn) (log : List EvalRec)
  | merged (log : List EvalRec) (added : Nat)
deriving Repr

/-- The poller/merger program after its inputs are decoded (lines 104-168):
load the dedup index, poll until a terminal status, `sys.exit` without
touching the output unless the status is "completed", and otherwise run the
merge loop.  Every constructor carries the final state of the output log. -/
def pollerMain (statuses : List (List Char)) (ctx : MergeCtx) (done : List MergeKey)
    (lines : List BatchLine) (log : List EvalRec) : PollerResult :=
  match pollLoop statuses with
  | none => .polling log
  | some s =>
    if s == "completed".data then
      match mergeRun ctx done lines log 0 with
      | .ok log1 a => .merged log1 a
      | .err e log1 _ => .crashed e log1
    else .aborted s log

/- The submitter (`submit_truthqa_batches.py` lines 164-208). -/
/-- One answers-file row as the submitter consumes it (`row["qid"]`,
`row["model"]`, `row["setting"]`, `row["temperature"]`, `row["answer"]`),
typed per the answer-record schema. -/
structure SubmitRow where
  qid : Int
  model : List Char
  setting : List Char
  temperature : PyVal
  answer : PyVal
deriving Repr

/-- One dataset question with the fields the prompt builder reads. -/
structure QRec where
  question : List Char
  best_answer : List Char
  correct_answers : List PyVal
  incorrect_answers : List PyVal
deriving Repr

/-- One request as the submitter builds it (lines 182-202).  The
chat-completion body is a fixed template around the judge prompt
(`build_prompt`), a pure string fill no claim depends on, so the request
keeps the correlation id and the data the body is filled from. -/
structure Request where
  custom_id : List Char
  question : QRec
  answer : PyVal
deriving Repr

/-- `truth_ds[row["qid"]]`: row access with Python-style negative indexing;
out of range raises `IndexError`. -/
def dsIndex (ds : List QRec) (n : Int) : Except PyExn QRec :=
  let i : Int := if n < 0 then n + ds.length else n
  if h : 0 ≤ i ∧ i.toNat < ds.length then .ok (ds.get ⟨i.toNat, h.2⟩) else .error .indexError

def submitKeyBeq (a b : PyVal × PyVal × PyVal) : Bool :=
  PyVal.beq a.1 b.1 && PyVal.beq a.2.1 b.2.1 && PyVal.beq a.2.2 b.2.2

/-- Python `k in already_done` in the submitter. -/
def submitKeyMem (k : PyVal × PyVal × PyVal) (done : List (PyVal × PyVal × PyVal)) : Bool :=
  done.any (submitKeyBeq k)

/-- The request-building loop (lines 174-202): break once
`len(requests) >= LIMIT`, skip rows whose identity
`(model, temperature, qid)` is already in the dedup index, index the dataset
at the row's qid, and append the request. -/
def buildRequests (ds : List QRec) (done : List (PyVal × PyVal × PyVal)) (limit : Int) :
    List SubmitRow → List Request → Except PyExn (List Request)
  | [], acc => .ok acc
  | row :: rest, acc =>
    if limit ≤ (acc.length : Int) then .ok acc
    else if submitKeyMem (.str row.model, row.temperature, .int row.qid) done then
      buildRequests ds done limit rest acc
    else
      match dsIndex ds row.qid with
      | .error e => .error e
      | .ok qrec =>
        buildRequests ds done limit rest
          (acc ++ [{ custom_id := encodeCustomId row.qid row.model row.setting
                     question := qrec
                     answer := row.answer }])

/- Concrete data for witnesses and counterexamples. -/
/-- The four judge-text shapes named by the spec, each around a label word. -/
def jsonShape (l : List Char) : List Char :=
  ("\x7b\"label\": \"".data) ++ l ++ ("\"\x7d".data)

def labelShape (l : List Char) : List Char := ("LABEL: ".data) ++ l

def arrowShape (l : List Char) : List Char := ("→ **".data) ++ l ++ ("** – because".data)

def bareShape (l : List Char) : List Char :=
  ("The model answer is ".data) ++ l ++ (" overall.".data)

/-- A merge context with one answered question and one dataset category. -/
def exCtx : MergeCtx :=
  { answersIndex := [((0, "m".data, "s".data),
      { temperature := .int 0, answer := .str ("a".data) })]
    categories := ["cat".data] }

def exLine : BatchLine :=
  { custom_id := "0|m|s".data
    content := "→ Truthful".data
    logprobs := .obj [("content".data, .arr [])] }

/-- The record `processLine` builds from `exLine` in `exCtx`. -/
def exRec : EvalRec :=
  { question_ind := 0
    evaluation := "→ Truthful".data
    model := "m".data
    temperature := .int 0
    candidate := .str ("a".data)
    judge_tokens := .arr []
    classification := TRUTHFUL
    category := some ("cat".data) }

def exLineNoLabel : BatchLine :=
  { custom_id := "0|m|s".data
    content := "No verdict given".data
    logprobs := .obj [("content".data, .arr [])] }

def exKeyDone : List MergeKey := [(.str ("m".data), .int 0, "0".data)]

/-- A well-formed evaluation-log line. -/
def goodLogLine : List Char :=
  "\x7b\"Model\": \"m\", \"Temperature\": 0, \"Question_ind\": 1\x7d".data

def exQ : QRec :=
  { question := "Q".data
    best_answer := "B".data
    correct_answers := []
    incorrect_answers := [] }

def exDs : List QRec := [exQ]

def exDoneSubmit : List (PyVal × PyVal × PyVal) := [(.str ("m".data), .int 0, .int 0)]

def exRows : List SubmitRow :=
  [{ qid := 0, model := "m".data, setting := "s".data, temperature := .int 0,
     answer := .str ("a".data) },
   { qid := 0, model := "m2".data, setting := "s".data, temperature := .int 0,
     answer := .str ("b".data) }]

def exReqs : List Request :=
  [{ custom_id := "0|m2|s".data, question := exQ, answer := .str ("b".data) }]

def c10LogProbs : PyVal :=
  .obj [("content".data, .arr [.obj [
    ("token".data, .str ("He".data)),
    ("logprob".data, .int (-1)),
    ("top_logprobs".data, .arr [.obj [
      ("token".data, .str ("He".data)),
      ("logprob".data, .int (-2))]])]])]

mutual

theorem PyVal.beq_refl : (v : PyVal) → PyVal.beq v v = true
  | .str a => by simp [PyVal.beq]
  | .int a => by simp [PyVal.beq]
  | .bool a => by simp [PyVal.beq]
  | .null => by simp [PyVal.beq]
  | .float a => by simp [PyVal.beq]
  | .arr xs => by simpa [PyVal.beq] using PyVal.beqList_refl xs
  | .obj fs => by simpa [PyVal.beq] using PyVal.beqFields_refl fs

theorem PyVal.beqList_refl : (xs : List PyVal) → PyVal.beqList xs xs = true
  | [] => rfl
  | x :: xs => by
    simpa [PyVal.beqList] using And.intro (PyVal.beq_refl x) (PyVal.beqList_refl xs)

theorem PyVal.beqFields_refl : (fs : List (List Char × PyVal)) → PyVal.beqFields fs fs = true
  | [] => rfl
  | (k, v) :: fs => by
    simpa [PyVal.beqFields] using And.intro (PyVal.beq_refl v) (PyVal.beqFields_refl fs)

end

theorem digitChar_spec (d : Nat) (h : d < 10) :
    (digitChar d).isDigit = true ∧ (digitChar d).toNat = 48 + d := by
  interval_cases d <;> exact ⟨by decide, by decide⟩

theorem natDigitsAux_lt (fuel : Nat) : ∀ n d, d ∈ natDigitsAux fuel n → d < 10 := by
  induction fuel with
  | zero => intro n d h; simp [natDigitsAux] at h
  | succ f ih =>
    intro n d h
    by_cases h0 : n = 0
    · simp [natDigitsAux, h0] at h
    · simp only [natDigitsAux, h0, if_false, List.mem_cons] at h
      rcases h with h | h
      · subst h; exact Nat.mod_lt _ (by norm_num)
      · exact ih _ _ h

theorem natDigitsAux_val (fuel : Nat) : ∀ n, n ≤ fuel → valLE (natDigitsAux fuel n) = n := by
  induction fuel with
  | zero =>
    intro n h
    interval_cases n
    simp [natDigitsAux, valLE]
  | succ f ih =>
    intro n h
    by_cases h0 : n = 0
    · simp [natDigitsAux, h0, valLE]
    · have hdiv : n / 10 ≤ f := by
        have : n / 10 < n := Nat.div_lt_self (Nat.pos_of_ne_zero h0) (by norm_num)
        omega
      simp only [natDigitsAux, h0, if_false, valLE]
      rw [ih _ hdiv]
      exact Nat.mod_add_div n 10

theorem foldl_reverse_valLE : ∀ (l : List Nat) (acc : Nat),
    l.reverse.foldl (fun a d => 10 * a + d) acc = acc * 10 ^ l.length + valLE l := by
  intro l
  induction l with
  | nil => intro acc; simp [valLE]
  | cons d t ih =>
    intro acc
    simp only [List.reverse_cons, List.foldl_append, List.foldl_cons, List.foldl_nil, ih,
      List.length_cons, valLE]
    ring

theorem digitsToNatOpt_map (l : List Nat) (hd : ∀ d ∈ l, d < 10) :
    ∀ acc, digitsToNatOpt acc (l.map digitChar) = some (l.foldl (fun a d => 10 * a + d) acc) := by
  induction l with
  | nil => intro acc; simp [digitsToNatOpt]
  | cons d t ih =>
    intro acc
    have h1 := digitChar_spec d (hd d (by simp))
    simp only [List.map_cons, digitsToNatOpt, h1.1, if_true, h1.2, List.foldl_cons]
    rw [show 48 + d - 48 = d from by omega]
    exact ih (fun x hx => hd x (by simp [hx])) _

theorem natDigits_ne_nil {m : Nat} (h : m ≠ 0) : natDigits m ≠ [] := by
  cases m with
  | zero => exact absurd rfl h
  | succ k =>
    simp only [natDigits, natDigitsAux]
    split
    · omega
    · simp

theorem digitsToNatOpt_pyNatToStr (m : Nat) : digitsToNatOpt 0 (pyNatToStr m) = some m := by
  by_cases h0 : m = 0
  · subst h0; decide
  · simp only [pyNatToStr, h0, if_false]
    have hmap := digitsToNatOpt_map ((natDigits m).reverse)
      (fun d hd => natDigitsAux_lt _ _ _ (List.mem_reverse.mp hd)) 0
    rw [hmap, foldl_reverse_valLE (natDigits m) 0]
    have hval : valLE (natDigits m) = m := natDigitsAux_val m m le_rfl
    rw [hval]
    simp

theorem pyNatToStr_forall_digit (m : Nat) : ∀ c ∈ pyNatToStr m, c.isDigit = true := by
  intro c hc
  by_cases h0 : m = 0
  · subst h0
    rw [show pyNatToStr 0 = [Char.ofNat 48] from rfl] at hc
    simp only [List.mem_singleton] at hc
    subst hc; decide
  · simp only [pyNatToStr, h0, if_false, List.mem_map] at hc
    obtain ⟨d, hd, rfl⟩ := hc
    exact (digitChar_spec d (natDigitsAux_lt _ _ _ (List.mem_reverse.mp hd))).1

theorem pyNatToStr_ne_nil (m : Nat) : pyNatToStr m ≠ [] := by
  by_cases h0 : m = 0
  · subst h0; decide
  · simp only [pyNatToStr, h0, if_false]
    intro h
    have := natDigits_ne_nil h0
    simp only [List.map_eq_nil_iff, List.reverse_eq_nil_iff] at h
    exact this h

theorem isDigit_not_char {c : Char} (x : Char) (hx : x.isDigit = false) (h : c.isDigit = true) :
    (c == x) = false := by
  cases hcx : c == x with
  | false => rfl
  | true =>
    have hce : c = x := eq_of_beq hcx
    subst hce
    rw [h] at hx
    exact absurd hx (by simp)

theorem isDigit_no_space {c : Char} (h : c.isDigit = true) : isPySpace c = false := by
  simp only [isPySpace,
    isDigit_not_char ' ' (by decide) h,
    isDigit_not_char chTab (by decide) h,
    isDigit_not_char chLF (by decide) h,
    isDigit_not_char chCR (by decide) h,
    isDigit_not_char chVT (by decide) h,
    isDigit_not_char chFF (by decide) h,
    Bool.or_self, Bool.or_false]

theorem pyIntToStr_no_space (n : Int) : ∀ c ∈ pyIntToStr n, isPySpace c = false := by
  intro c hc
  simp only [pyIntToStr] at hc
  split at hc
  · rcases List.mem_cons.mp hc with h | h
    · subst h; decide
    · exact isDigit_no_space (pyNatToStr_forall_digit _ _ h)
  · exact isDigit_no_space (pyNatToStr_forall_digit _ _ hc)

theorem pyIntToStr_no_bar (n : Int) : ∀ c ∈ pyIntToStr n, (c == chBar) = false := by
  intro c hc
  simp only [pyIntToStr] at hc
  split at hc
  · rcases List.mem_cons.mp hc with h | h
    · subst h; decide
    · exact isDigit_not_char chBar (by decide) (pyNatToStr_forall_digit _ _ h)
  · exact isDigit_not_char chBar (by decide) (pyNatToStr_forall_digit _ _ hc)

theorem dropWhile_eq_self_of (p : Char → Bool) (l : List Char) (h : ∀ c ∈ l, p c = false) :
    l.dropWhile p = l := by
  cases l with
  | nil => rfl
  | cons c cs => simp [List.dropWhile, h c (by simp)]

theorem pyStrip_eq_self_of (l : List Char) (h : ∀ c ∈ l, isPySpace c = false) :
    pyStrip l = l := by
  unfold pyStrip
  rw [dropWhile_eq_self_of _ _ h]
  rw [dropWhile_eq_self_of _ _ (fun c hc => h c (List.mem_reverse.mp hc))]
  exact List.reverse_reverse l

/-- Round trip of Python's `str`/`int` conversions on the canonical decimal
form: `int(str(n)) == n`. -/
theorem pyStrToInt_eq_core (s : List Char) (c : Char) (rest : List Char)
    (h : pyStrip s = c :: rest) : pyStrToInt s = pyStrToIntCore c rest := by
  unfold pyStrToInt
  rw [h]

theorem pyStrToInt_pyIntToStr (n : Int) : pyStrToInt (pyIntToStr n) = .ok n := by
  have hstrip : pyStrip (pyIntToStr n) = pyIntToStr n :=
    pyStrip_eq_self_of _ (pyIntToStr_no_space n)
  by_cases hneg : n < 0
  · obtain ⟨c, cs, hcons⟩ : ∃ c cs, pyNatToStr n.natAbs = c :: cs := by
      cases h : pyNatToStr n.natAbs with
      | nil => exact absurd h (pyNatToStr_ne_nil _)
      | cons c cs => exact ⟨c, cs, rfl⟩
    have hrep : pyIntToStr n = '-' :: (c :: cs) := by
      rw [← hcons]; simp [pyIntToStr, hneg]
    rw [pyStrToInt_eq_core _ '-' (c :: cs) (by rw [hstrip, hrep])]
    have hdig : digitsToNatOpt 0 (c :: cs) = some n.natAbs := by
      rw [← hcons]; exact digitsToNatOpt_pyNatToStr _
    simp only [pyStrToIntCore, show (('-' : Char) == '-') = true from rfl, if_true,
      List.isEmpty_cons, hdig]
    simp only [Bool.false_eq_true, if_false]
    have hval : -((n.natAbs : Nat) : Int) = n := by omega
    rw [hval]
  · obtain ⟨c, cs, hcons⟩ : ∃ c cs, pyNatToStr n.toNat = c :: cs := by
      cases h : pyNatToStr n.toNat with
      | nil => exact absurd h (pyNatToStr_ne_nil _)
      | cons c cs => exact ⟨c, cs, rfl⟩
    have hcd : c.isDigit = true := by
      apply pyNatToStr_forall_digit n.toNat
      rw [hcons]; simp
    have hrep : pyIntToStr n = pyNatToStr n.toNat := by
      simp [pyIntToStr, hneg]
    rw [pyStrToInt_eq_core _ c cs (by rw [hstrip, hrep, hcons])]
    have hdig : digitsToNatOpt 0 (c :: cs) = some n.toNat := by
      rw [← hcons]; exact digitsToNatOpt_pyNatToStr _
    simp only [pyStrToIntCore, isDigit_not_char '-' (by decide) hcd,
      isDigit_not_char '+' (by decide) hcd, hdig]
    simp only [Bool.false_eq_true, if_false]
    have hval : ((n.toNat : Nat) : Int) = n := by omega
    rw [hval]

theorem pySplit_no_sep (sep : Char) :
    ∀ l : List Char, (∀ c ∈ l, (c == sep) = false) → pySplit sep l = [l] := by
  intro l
  induction l with
  | nil => intro _; rfl
  | cons c cs ih =>
    intro h
    have hih := ih (fun x hx => h x (by simp [hx]))
    have hstep : pySplit sep (c :: cs) =
        match pySplit sep cs with
        | [] => [[c]]
        | t :: ts => (c :: t) :: ts := by
      simp [pySplit, h c (by simp)]
    rw [hstep, hih]

theorem pySplit_append (sep : Char) :
    ∀ (l r : List Char), (∀ c ∈ l, (c == sep) = false) →
      pySplit sep (l ++ sep :: r) = l :: pySplit sep r := by
  intro l
  induction l with
  | nil =>
    intro r _
    simp [pySplit]
  | cons c cs ih =>
    intro r h
    have hih := ih r (fun x hx => h x (by simp [hx]))
    have hstep : pySplit sep (c :: (cs ++ sep :: r)) =
        match pySplit sep (cs ++ sep :: r) with
        | [] => [[c]]
        | t :: ts => (c :: t) :: ts := by
      simp [pySplit, h c (by simp)]
    rw [List.cons_append, hstep, hih]

/-- Splitting a submitter-generated correlation id on the separator yields
exactly the three encoded parts, provided model and setting avoid the
separator. -/
theorem pySplit_encodeCustomId (qid : Int) (model setting : List Char)
    (hm : ∀ c ∈ model, (c == chBar) = false) (hs : ∀ c ∈ setting, (c == chBar) = false) :
    pySplit chBar (encodeCustomId qid model setting) = [pyIntToStr qid, model, setting] := by
  unfold encodeCustomId
  rw [pySplit_append chBar _ _ (pyIntToStr_no_bar qid)]
  rw [pySplit_append chBar _ _ hm]
  rw [pySplit_no_sep chBar _ hs]

/- Lemmas about the regex machinery. -/
theorem matchLitCI_append : ∀ (w s m r : List Char), matchLitCI w s = some (m, r) →
    s = m ++ r := by
  intro w
  induction w with
  | nil =>
    intro s m r h
    simp only [matchLitCI, Option.some.injEq, Prod.mk.injEq] at h
    obtain ⟨h1, h2⟩ := h
    subst h1
    subst h2
    rfl
  | cons wc ws ih =>
    intro s m r h
    cases s with
    | nil => simp [matchLitCI] at h
    | cons c cs =>
      simp only [matchLitCI] at h
      split at h
      · cases hm : matchLitCI ws cs with
        | none => rw [hm] at h; simp at h
        | some p =>
          obtain ⟨m2, r2⟩ := p
          rw [hm] at h
          simp only [Option.some.injEq, Prod.mk.injEq] at h
          obtain ⟨hm1, hr⟩ := h
          subst hm1
          subst hr
          simp [ih cs m2 r2 hm]
      · simp at h

theorem matchLitCI_matches : ∀ (w s m r : List Char), matchLitCI w s = some (m, r) →
    List.Forall₂ (fun wc c => reCharMatchCI wc c = true) w m := by
  intro w
  induction w with
  | nil =>
    intro s m r h
    simp only [matchLitCI, Option.some.injEq, Prod.mk.injEq] at h
    obtain ⟨h1, _⟩ := h
    subst h1
    exact List.Forall₂.nil
  | cons wc ws ih =>
    intro s m r h
    cases s with
    | nil => simp [matchLitCI] at h
    | cons c cs =>
      simp only [matchLitCI] at h
      split at h
      · rename_i hmatch
        cases hm : matchLitCI ws cs with
        | none => rw [hm] at h; simp at h
        | some p =>
          obtain ⟨m2, r2⟩ := p
          rw [hm] at h
          simp only [Option.some.injEq, Prod.mk.injEq] at h
          obtain ⟨hm1, _⟩ := h
          subst hm1
          exact List.Forall₂.cons hmatch (ih cs m2 r2 hm)
      · simp at h

/-- On an ASCII subject character an IGNORECASE match against a lowercase
ASCII literal pins the character's lowercase down to the literal: the
extra equivalences ı and ſ are non-ASCII, and İ/Kelvin are too. -/
theorem reCharMatchCI_ascii_lower {w c : Char} (hc : c.toNat < 128)
    (h : reCharMatchCI w c = true) : pyLowerChar c = [w] := by
  unfold reCharMatchCI at h
  simp only [Bool.or_eq_true, Bool.and_eq_true] at h
  rcases h with (h | ⟨_, h⟩) | ⟨_, h⟩
  · have heq : simpleLowerChar c = w := eq_of_beq h
    unfold pyLowerChar
    rw [if_neg (by omega), heq]
  · have hce : c = Char.ofNat 0x131 := eq_of_beq h
    subst hce
    exact absurd hc (by decide)
  · have hce : c = Char.ofNat 0x17F := eq_of_beq h
    subst hce
    exact absurd hc (by decide)

theorem pyLower_of_matches : ∀ (w m : List Char), (∀ c ∈ m, c.toNat < 128) →
    List.Forall₂ (fun wc c => reCharMatchCI wc c = true) w m → pyLower m = w := by
  intro w
  induction w with
  | nil =>
    intro m _ h
    cases h
    rfl
  | cons wc ws ih =>
    intro m hm h
    cases h with
    | cons hrel htail =>
      rename_i c cs
      simp only [pyLower]
      rw [reCharMatchCI_ascii_lower (hm c (by simp)) hrel,
        ih cs (fun x hx => hm x (by simp [hx])) htail]
      rfl

theorem keywordAt_parts (s m : List Char) (h : keywordAt s = some m) :
    (∀ c ∈ m, c ∈ s) ∧
    (List.Forall₂ (fun wc c => reCharMatchCI wc c = true) TRUTHFUL m ∨
     List.Forall₂ (fun wc c => reCharMatchCI wc c = true) HALLUCINATED m) := by
  unfold keywordAt at h
  cases h1 : matchLitCI TRUTHFUL s with
  | some p =>
    obtain ⟨m1, r1⟩ := p
    rw [h1] at h
    simp only at h
    split at h
    · have hm : m1 = m := by simpa using h
      subst hm
      refine ⟨?_, Or.inl (matchLitCI_matches TRUTHFUL s m1 r1 h1)⟩
      intro c hc
      rw [matchLitCI_append TRUTHFUL s m1 r1 h1]
      exact List.mem_append_left _ hc
    · simp at h
  | none =>
    rw [h1] at h
    simp only at h
    cases h2 : matchLitCI HALLUCINATED s with
    | some p =>
      obtain ⟨m1, r1⟩ := p
      rw [h2] at h
      simp only at h
      split at h
      · have hm : m1 = m := by simpa using h
        subst hm
        refine ⟨?_, Or.inr (matchLitCI_matches HALLUCINATED s m1 r1 h2)⟩
        intro c hc
        rw [matchLitCI_append HALLUCINATED s m1 r1 h2]
        exact List.mem_append_left _ hc
      · simp at h
    | none => rw [h2] at h; simp at h

theorem keywordAt_ascii (s m : List Char) (hs : ∀ c ∈ s, c.toNat < 128)
    (h : keywordAt s = some m) : pyLower m = TRUTHFUL ∨ pyLower m = HALLUCINATED := by
  obtain ⟨hmem, hcase⟩ := keywordAt_parts s m h
  have hm : ∀ c ∈ m, c.toNat < 128 := fun c hc => hs c (hmem c hc)
  rcases hcase with h2 | h2
  · exact Or.inl (pyLower_of_matches TRUTHFUL m hm h2)
  · exact Or.inr (pyLower_of_matches HALLUCINATED m hm h2)

theorem mem_of_mem_dropWhile (p : Char → Bool) :
    ∀ (l : List Char), ∀ c ∈ l.dropWhile p, c ∈ l := by
  intro l
  induction l with
  | nil => intro c hc; simp at hc
  | cons x xs ih =>
    intro c hc
    cases hx : p x with
    | true =>
      simp only [List.dropWhile, hx] at hc
      exact List.mem_cons_of_mem _ (ih c hc)
    | false =>
      simp only [List.dropWhile, hx] at hc
      exact hc

theorem searchAux_exists_sub (tryAt : Option Char → List Char → Option (List Char)) :
    ∀ (s : List Char) (prev : Option Char) (m : List Char),
      searchAux tryAt prev s = some m → ∃ p t, tryAt p t = some m ∧ ∀ c ∈ t, c ∈ s := by
  intro s
  induction s with
  | nil =>
    intro prev m h
    exact ⟨prev, [], h, by simp⟩
  | cons c cs ih =>
    intro prev m h
    simp only [searchAux] at h
    cases ht : tryAt prev (c :: cs) with
    | some m2 =>
      rw [ht] at h
      simp only [Option.some.injEq] at h
      subst h
      exact ⟨prev, c :: cs, ht, fun x hx => hx⟩
    | none =>
      rw [ht] at h
      simp only at h
      obtain ⟨p, t, hp, hsub⟩ := ih (some c) m h
      exact ⟨p, t, hp, fun x hx => List.mem_cons_of_mem c (hsub x hx)⟩

theorem arrowTryAt_keyword_sub (p : Option Char) (t m : List Char)
    (h : arrowTryAt p t = some m) : ∃ u, keywordAt u = some m ∧ ∀ c ∈ u, c ∈ t := by
  cases t with
  | nil => simp [arrowTryAt] at h
  | cons c rest =>
    simp only [arrowTryAt] at h
    split at h
    · refine ⟨_, h, ?_⟩
      intro x hx
      exact List.mem_cons_of_mem c
        (mem_of_mem_dropWhile _ _ _ (mem_of_mem_dropWhile _ _ _ (mem_of_mem_dropWhile _ _ _ hx)))
    · simp at h

theorem wordTryAt_keyword_sub (p : Option Char) (t m : List Char)
    (h : wordTryAt p t = some m) : ∃ u, keywordAt u = some m ∧ ∀ c ∈ u, c ∈ t := by
  simp only [wordTryAt] at h
  split at h
  · exact ⟨t, h, fun c hc => hc⟩
  · simp at h

/-- C9 (amended): on every ASCII input string, `extract_label` of
`poll_truthqa_batches.py` returns `None`, "truthful" or "hallucinated", and
— being a total function of the text — never raises.  (The exact-label
guarantee stops at ASCII: the IGNORECASE equivalences let non-ASCII input
produce near-keyword captures such as "hallucınated"; and the claim fails
altogether for `poll_truth_p2.py`, whose JSON branch returns arbitrary
lower-cased strings and raises `AttributeError` on a non-string label.) -/
theorem extract_label_batches_range_ascii (t : List Char)
    (ht : ∀ c ∈ t, c.toNat < 128) :
    extract_label_batches t = none ∨ extract_label_batches t = some TRUTHFUL ∨
      extract_label_batches t = some HALLUCINATED := by
  unfold extract_label_batches
  cases ha : searchArrow t with
  | some m =>
    obtain ⟨p, u, hp, hu⟩ := searchAux_exists_sub arrowTryAt t none m ha
    obtain ⟨u2, hku, hu2⟩ := arrowTryAt_keyword_sub p u m hp
    have hs : ∀ c ∈ u2, c.toNat < 128 := fun c hc => ht c (hu c (hu2 c hc))
    rcases keywordAt_ascii u2 m hs hku with h | h
    · right; left; simp [h]
    · right; right; simp [h]
  | none =>
    cases hw : searchWord t with
    | some m =>
      obtain ⟨p, u, hp, hu⟩ := searchAux_exists_sub wordTryAt t none m hw
      obtain ⟨u2, hku, hu2⟩ := wordTryAt_keyword_sub p u m hp
      have hs : ∀ c ∈ u2, c.toNat < 128 := fun c hc => ht c (hu c (hu2 c hc))
      rcases keywordAt_ascii u2 m hs hku with h | h
      · right; left; simp [h]
      · right; right; simp [h]
    | none => left; simp

/- Lemmas about the merge loop. -/
theorem keyBeq_refl (k : MergeKey) : keyBeq k k = true := by
  obtain ⟨k1, k2, k3⟩ := k
  simp [keyBeq, PyVal.beq_refl]

theorem keyMem_of_mem {r : EvalRec} {log : List EvalRec} (h : r ∈ log) :
    keyMem (recDoneKey r) (doneKeys log) = true := by
  unfold keyMem doneKeys
  rw [List.any_eq_true]
  exact ⟨recDoneKey r, List.mem_map_of_mem _ h, keyBeq_refl _⟩

theorem keyMem_append (k : MergeKey) (l1 l2 : List MergeKey) (h : keyMem k l1 = true) :
    keyMem k (l1 ++ l2) = true := by
  unfold keyMem at h ⊢
  rw [List.any_eq_true] at h ⊢
  obtain ⟨x, hx, hk⟩ := h
  exact ⟨x, List.mem_append_left _ hx, hk⟩

theorem doneKeys_append (l1 l2 : List EvalRec) :
    doneKeys (l1 ++ l2) = doneKeys l1 ++ doneKeys l2 := by
  simp [doneKeys]

theorem mergeRun_extends (ctx : MergeCtx) (done : List MergeKey) :
    ∀ (ls : List BatchLine) (log : List EvalRec) (a : Nat) (log1 : List EvalRec) (a1 : Nat),
      mergeRun ctx done ls log a = .ok log1 a1 → ∃ ext, log1 = log ++ ext := by
  intro ls
  induction ls with
  | nil =>
    intro log a log1 a1 h
    simp only [mergeRun, MergeResult.ok.injEq] at h
    exact ⟨[], by rw [← h.1]; simp⟩
  | cons l ls ih =>
    intro log a log1 a1 h
    simp only [mergeRun] at h
    cases hp : processLine ctx done l with
    | error e => rw [hp] at h; simp at h
    | ok o =>
      rw [hp] at h
      cases o with
      | skip => exact ih log a log1 a1 h
      | add r =>
        obtain ⟨ext, hext⟩ := ih (log ++ [r]) (a + 1) log1 a1 h
        exact ⟨r :: ext, by rw [hext]; simp⟩

theorem mergeRun_ok_lines (ctx : MergeCtx) (done : List MergeKey) :
    ∀ (ls : List BatchLine) (log : List EvalRec) (a : Nat) (log1 : List EvalRec) (a1 : Nat),
      mergeRun ctx done ls log a = .ok log1 a1 →
      ∀ l ∈ ls, ∃ o, processLine ctx done l = .ok o ∧ ∀ r, o = .add r → r ∈ log1 := by
  intro ls
  induction ls with
  | nil => intro log a log1 a1 _ l hl; simp at hl
  | cons l0 ls ih =>
    intro log a log1 a1 h l hl
    simp only [mergeRun] at h
    cases hp : processLine ctx done l0 with
    | error e => rw [hp] at h; simp at h
    | ok o =>
      rw [hp] at h
      cases o with
      | skip =>
        rcases List.mem_cons.mp hl with rfl | hmem
        · exact ⟨.skip, hp, by intro r hr; cases hr⟩
        · exact ih log a log1 a1 h l hmem
      | add r0 =>
        rcases List.mem_cons.mp hl with rfl | hmem
        · refine ⟨.add r0, hp, ?_⟩
          intro r hr
          cases hr
          obtain ⟨ext, hext⟩ := mergeRun_extends ctx done ls (log ++ [r0]) (a + 1) log1 a1 h
          rw [hext]
          simp
        · exact ih (log ++ [r0]) (a + 1) log1 a1 h l hmem

theorem mergeRun_all_skip (ctx : MergeCtx) (done : List MergeKey) :
    ∀ (ls : List BatchLine) (log : List EvalRec) (a : Nat),
      (∀ l ∈ ls, processLine ctx done l = .ok .skip) →
      mergeRun ctx done ls log a = .ok log a := by
  intro ls
  induction ls with
  | nil => intro log a _; rfl
  | cons l0 ls ih =>
    intro log a h
    simp only [mergeRun, h l0 (by simp)]
    exact ih log a (fun l hl => h l (by simp [hl]))

/-- Processing the same batch line a second time: whatever the first run did
under the start-of-run done set, the second run skips the line, provided the
done set has grown to cover everything the first run appended. -/
theorem processLine_second_run (ctx : MergeCtx) (done0 done1 : List MergeKey)
    (hsub : ∀ k, keyMem k done0 = true → keyMem k done1 = true)
    (l : BatchLine) (n : Int) (mm ss : List Char)
    (hcid : l.custom_id = encodeCustomId n mm ss)
    (hmm : ∀ c ∈ mm, (c == chBar) = false) (hss : ∀ c ∈ ss, (c == chBar) = false)
    (o : Outcome) (h1 : processLine ctx done0 l = .ok o)
    (hadd : ∀ r, o = .add r → keyMem (recDoneKey r) done1 = true) :
    processLine ctx done1 l = .ok .skip := by
  have hsplit : pySplit chBar l.custom_id = [pyIntToStr n, mm, ss] := by
    rw [hcid]; exact pySplit_encodeCustomId n mm ss hmm hss
  unfold processLine at h1 ⊢
  simp only [hsplit, pyStrToInt_pyIntToStr] at h1 ⊢
  cases hlook : dictLookup ctx.answersIndex (n, mm, ss) with
  | none =>
    rw [hlook] at h1
    exact Except.noConfusion h1
  | some row =>
    rw [hlook] at h1
    simp only at h1 ⊢
    cases hk1 : keyMem (.str mm, row.temperature, pyIntToStr n) done1 with
    | true => simp
    | false =>
      simp only [Bool.false_eq_true, if_false]
      cases hk0 : keyMem (.str mm, row.temperature, pyIntToStr n) done0 with
      | true =>
        have hcontra := hsub _ hk0
        rw [hk1] at hcontra
        exact absurd hcontra (by simp)
      | false =>
        rw [hk0] at h1
        simp only [Bool.false_eq_true, if_false] at h1
        cases hnorm : normalise_logprobs l.logprobs with
        | error e =>
          rw [hnorm] at h1
          exact Except.noConfusion h1
        | ok judge =>
          rw [hnorm] at h1
          simp only at h1 ⊢
          cases hext : extract_label_batches (pyStrip (dropBOM l.content)) with
          | none => rfl
          | some lab =>
            rw [hext] at h1
            simp only [Except.ok.injEq] at h1
            have hmemk := hadd _ h1.symm
            simp only [recDoneKey] at hmemk
            rw [hk1] at hmemk
            exact absurd hmemk (by simp)

/-- C2: running the merge a second time on the same batch output, with the
evaluation log left as the first run wrote it, appends no records: the dedup
index rebuilt from the final log (string/int round trip of the question id
included) covers every line, so each line is skipped and `added` is 0.  The
hypotheses say the batch lines carry submitter-shaped correlation ids (the
encoded qid is a canonical decimal, model and setting avoid the separator)
and that the start-of-run index came from the starting log. -/
theorem mergeRun_rerun (ctx : MergeCtx) (done0 : List MergeKey)
    (lines : List BatchLine) (log0 log1 : List EvalRec) (a1 : Nat)
    (hcid : ∀ l ∈ lines, ∃ n mm ss, l.custom_id = encodeCustomId n mm ss ∧
      (∀ c ∈ mm, (c == chBar) = false) ∧ (∀ c ∈ ss, (c == chBar) = false))
    (hdone : ∀ k, keyMem k done0 = true → keyMem k (doneKeys log0) = true)
    (hrun : mergeRun ctx done0 lines log0 0 = .ok log1 a1) :
    mergeRun ctx (doneKeys log1) lines log1 0 = .ok log1 0 := by
  obtain ⟨ext, rfl⟩ := mergeRun_extends ctx done0 lines log0 0 log1 a1 hrun
  have hsub : ∀ k, keyMem k done0 = true → keyMem k (doneKeys (log0 ++ ext)) = true := by
    intro k hk
    rw [doneKeys_append]
    exact keyMem_append _ _ _ (hdone k hk)
  apply mergeRun_all_skip
  intro l hl
  obtain ⟨n, mm, ss, hc, hmm, hss⟩ := hcid l hl
  obtain ⟨o, ho, hor⟩ := mergeRun_ok_lines ctx done0 lines log0 0 _ a1 hrun l hl
  exact processLine_second_run ctx done0 (doneKeys (log0 ++ ext)) hsub l n mm ss hc hmm hss o ho
    (fun r hr => keyMem_of_mem (hor r hr))

/- Lemmas about the dedup-index builders. -/
theorem load_done_submit_cons_none (p : List Char) (rest : List (List Char))
    (acc : List (PyVal × PyVal × PyVal)) (hp : jsonLoads p = none) :
    load_done_submit (p :: rest) acc = load_done_submit rest acc := by
  simp only [load_done_submit, hp]

theorem load_done_submit_cons_some (p : List Char) (rest : List (List Char))
    (acc : List (PyVal × PyVal × PyVal)) (v : PyVal) (hp : jsonLoads p = some v) :
    load_done_submit (p :: rest) acc =
      match submitRecKey v with
      | .error e => .error e
      | .ok k => load_done_submit rest (acc ++ [k]) := by
  simp only [load_done_submit, hp]

theorem load_done_poll_cons_none (p : List Char) (rest : List (List Char))
    (acc : List (PyVal × PyVal × List Char)) (hp : jsonLoads p = none) :
    load_done_poll (p :: rest) acc = .error .jsonDecodeError := by
  simp only [load_done_poll, hp]

theorem load_done_poll_cons_some (p : List Char) (rest : List (List Char))
    (acc : List (PyVal × PyVal × List Char)) (v : PyVal) (hp : jsonLoads p = some v) :
    load_done_poll (p :: rest) acc =
      match pollRecKey v with
      | .error e => .error e
      | .ok k => load_done_poll rest (acc ++ [k]) := by
  simp only [load_done_poll, hp]

theorem load_done_submit_skip_bad (bad : List Char) (hbad : jsonLoads bad = none) :
    ∀ (pre post : List (List Char)) (acc : List (PyVal × PyVal × PyVal)),
      load_done_submit (pre ++ bad :: post) acc = load_done_submit (pre ++ post) acc := by
  intro pre
  induction pre with
  | nil =>
    intro post acc
    simp only [List.nil_append]
    exact load_done_submit_cons_none bad post acc hbad
  | cons p pre ih =>
    intro post acc
    simp only [List.cons_append]
    cases hp : jsonLoads p with
    | none =>
      rw [load_done_submit_cons_none p (pre ++ bad :: post) acc hp,
        load_done_submit_cons_none p (pre ++ post) acc hp]
      exact ih post acc
    | some v =>
      rw [load_done_submit_cons_some p (pre ++ bad :: post) acc v hp,
        load_done_submit_cons_some p (pre ++ post) acc v hp]
      cases hk : submitRecKey v with
      | error e => rfl
      | ok k => exact ih post (acc ++ [k])

theorem load_done_poll_abort_on_bad (bad : List Char) (hbad : jsonLoads bad = none) :
    ∀ (pre rest : List (List Char)) (acc a : List (PyVal × PyVal × List Char)),
      load_done_poll pre acc = .ok a →
      load_done_poll (pre ++ bad :: rest) acc = .error .jsonDecodeError := by
  intro pre
  induction pre with
  | nil =>
    intro rest acc a _
    simp only [List.nil_append]
    exact load_done_poll_cons_none bad rest acc hbad
  | cons p pre ih =>
    intro rest acc a h
    simp only [List.cons_append]
    cases hp : jsonLoads p with
    | none =>
      rw [load_done_poll_cons_none p pre acc hp] at h
      exact Except.noConfusion h
    | some v =>
      rw [load_done_poll_cons_some p pre acc v hp] at h
      rw [load_done_poll_cons_some p (pre ++ bad :: rest) acc v hp]
      cases hk : pollRecKey v with
      | error e =>
        rw [hk] at h
        exact Except.noConfusion h
      | ok k =>
        rw [hk] at h
        exact ih rest (acc ++ [k]) a h

/- Lemmas about the submitter's request-building loop. -/
theorem buildRequests_length (ds : List QRec) (done : List (PyVal × PyVal × PyVal))
    (limit : Int) :
    ∀ (rows : List SubmitRow) (acc reqs : List Request),
      buildRequests ds done limit rows acc = .ok reqs →
      (reqs.length : Int) ≤ max limit (acc.length : Int) := by
  intro rows
  induction rows with
  | nil =>
    intro acc reqs h
    simp only [buildRequests, Except.ok.injEq] at h
    subst h
    exact le_max_right _ _
  | cons row rest ih =>
    intro acc reqs h
    simp only [buildRequests] at h
    split at h
    · simp only [Except.ok.injEq] at h
      subst h
      exact le_max_right _ _
    · rename_i hlim
      split at h
      · exact ih acc reqs h
      · cases hds : dsIndex ds row.qid with
        | error e =>
          rw [hds] at h
          exact Except.noConfusion h
        | ok qrec =>
          rw [hds] at h
          have hih := ih _ reqs h
          simp only [List.length_append, List.length_singleton] at hih
          push_cast at hih
          have h1 : (acc.length : Int) + 1 ≤ limit := by omega
          rw [max_eq_left h1] at hih
          exact le_trans hih (le_max_left _ _)

theorem buildRequests_sound (ds : List QRec) (done : List (PyVal × PyVal × PyVal))
    (limit : Int) :
    ∀ (rows : List SubmitRow) (acc reqs : List Request),
      buildRequests ds done limit rows acc = .ok reqs →
      ∀ r ∈ reqs, r ∈ acc ∨ ∃ row, row ∈ rows ∧
        submitKeyMem (.str row.model, row.temperature, .int row.qid) done = false ∧
        r.custom_id = encodeCustomId row.qid row.model row.setting := by
  intro rows
  induction rows with
  | nil =>
    intro acc reqs h r hr
    simp only [buildRequests, Except.ok.injEq] at h
    subst h
    exact Or.inl hr
  | cons row rest ih =>
    intro acc reqs h r hr
    simp only [buildRequests] at h
    split at h
    · simp only [Except.ok.injEq] at h
      subst h
      exact Or.inl hr
    · split at h
      · rcases ih acc reqs h r hr with hacc | ⟨row2, hrow2, hk, hc⟩
        · exact Or.inl hacc
        · exact Or.inr ⟨row2, List.mem_cons_of_mem _ hrow2, hk, hc⟩
      · rename_i hskip
        have hks : submitKeyMem (.str row.model, row.temperature, .int row.qid) done = false := by
          cases hsk : submitKeyMem (.str row.model, row.temperature, .int row.qid) done with
          | true => exact absurd hsk hskip
          | false => rfl
        cases hds : dsIndex ds row.qid with
        | error e =>
          rw [hds] at h
          exact Except.noConfusion h
        | ok qrec =>
          rw [hds] at h
          rcases ih _ reqs h r hr with hacc | ⟨row2, hrow2, hk, hc⟩
          · rcases List.mem_append.mp hacc with ha | hb
            · exact Or.inl ha
            · simp only [List.mem_singleton] at hb
              subst hb
              exact Or.inr ⟨row, List.mem_cons_self _ _, hks, rfl⟩
          · exact Or.inr ⟨row2, List.mem_cons_of_mem _ hrow2, hk, hc⟩

/- Claim theorems. -/
/-- C1 (counterexample): `extract_label` of `poll_truth_p2.py` has no
bare-keyword fallback, so a bare-keyword judge text yields `None`, not the
label the claim requires. -/
theorem extract_label_p2_misses_bare_keyword :
    extract_label_p2 (bareShape ("Truthful".data)) = .ok none ∧
    (Except.ok (none : Option (List Char)) : Except PyExn (Option (List Char))) ≠
      .ok (some TRUTHFUL) :=
  ⟨by rfl, fun h => Option.noConfusion (Except.ok.inj h)⟩

/-- C1 (amended): `poll_truth_p2.py` tries JSON, then the "label:" pattern,
then the arrow pattern — and returns the correct label on those three shapes
but `None` on bare-keyword text; `poll_truthqa_batches.py` tries the arrow
pattern, then the bare keyword — and returns the correct label on all four
shapes (JSON-labelled and LABEL:-style texts via the keyword fallback). -/
theorem extract_label_heuristics_by_file :
    (extract_label_p2 (jsonShape ("Truthful".data)) = .ok (some TRUTHFUL) ∧
     extract_label_p2 (labelShape ("Truthful".data)) = .ok (some TRUTHFUL) ∧
     extract_label_p2 (arrowShape ("Truthful".data)) = .ok (some TRUTHFUL) ∧
     extract_label_p2 (bareShape ("Truthful".data)) = .ok none) ∧
    (extract_label_p2 (jsonShape ("Hallucinated".data)) = .ok (some HALLUCINATED) ∧
     extract_label_p2 (labelShape ("Hallucinated".data)) = .ok (some HALLUCINATED) ∧
     extract_label_p2 (arrowShape ("Hallucinated".data)) = .ok (some HALLUCINATED) ∧
     extract_label_p2 (bareShape ("Hallucinated".data)) = .ok none) ∧
    (extract_label_batches (jsonShape ("Truthful".data)) = some TRUTHFUL ∧
     extract_label_batches (labelShape ("Truthful".data)) = some TRUTHFUL ∧
     extract_label_batches (arrowShape ("Truthful".data)) = some TRUTHFUL ∧
     extract_label_batches (bareShape ("Truthful".data)) = some TRUTHFUL) ∧
    (extract_label_batches (jsonShape ("Hallucinated".data)) = some HALLUCINATED ∧
     extract_label_batches (labelShape ("Hallucinated".data)) = some HALLUCINATED ∧
     extract_label_batches (arrowShape ("Hallucinated".data)) = some HALLUCINATED ∧
     extract_label_batches (bareShape ("Hallucinated".data)) = some HALLUCINATED) :=
  ⟨⟨by rfl, by rfl, by rfl, by rfl⟩, ⟨by rfl, by rfl, by rfl, by rfl⟩,
   ⟨by rfl, by rfl, by rfl, by rfl⟩, ⟨by rfl, by rfl, by rfl, by rfl⟩⟩

/-- C2 (witness): a concrete first run appends one record; the second run
over the same line, with the index rebuilt from the log, appends nothing. -/
theorem mergeRun_rerun_witness :
    mergeRun exCtx (doneKeys [exRec]) [exLine] [exRec] 0 = .ok [exRec] 0 := by
  apply mergeRun_rerun exCtx [] [exLine] [] [exRec] 1
  · intro l hl
    simp only [List.mem_singleton] at hl
    subst hl
    exact ⟨0, "m".data, "s".data, by decide, by decide, by decide⟩
  · intro k hk
    simp [keyMem] at hk
  · rfl

/-- C3 (counterexample): within a single merge run the done set is never
updated, so two batch results with the same (model, temperature, question id)
are both appended — the second is not skipped as a duplicate. -/
theorem merge_same_run_duplicates :
    mergeRun exCtx [] [exLine, exLine] [] 0 = .ok [exRec, exRec] 2 := by rfl

/-- C3 (amended): against the done set loaded at the start of the run, the
triple (model, temperature, question id) alone decides the skip: a batch
result whose key is present is skipped whatever its judge text or
log-probabilities are (they are never even inspected). -/
theorem merge_dedup_key_only (ctx : MergeCtx) (done : List MergeKey)
    (cid q mm ss : List Char) (n : Int) (row : AnswerRow)
    (hsplit : pySplit chBar cid = [q, mm, ss])
    (hint : pyStrToInt q = .ok n)
    (hlook : dictLookup ctx.answersIndex (n, mm, ss) = some row)
    (hmem : keyMem (.str mm, row.temperature, q) done = true) :
    ∀ (content : List Char) (lp : PyVal),
      processLine ctx done { custom_id := cid, content := content, logprobs := lp } =
        .ok .skip := by
  intro content lp
  unfold processLine
  simp only [hsplit, hint, hlook, hmem, if_true]

/-- C3 (witness): a concrete key already in the done set is skipped even with
junk judge text and a logprobs value that would raise if inspected. -/
theorem merge_dedup_key_only_witness :
    processLine exCtx exKeyDone
      { custom_id := "0|m|s".data, content := "junk".data, logprobs := .null } = .ok .skip :=
  merge_dedup_key_only exCtx exKeyDone ("0|m|s".data) ("0".data) ("m".data) ("s".data) 0
    { temperature := .int 0, answer := .str ("a".data) }
    (by rfl) (by rfl) (by rfl) (by rfl) ("junk".data) .null

/-- C4: a batch result whose judge text yields no recognizable label
(`extract_label` returns `None`) is skipped: nothing is appended for it and
the `added` counter is untouched. -/
theorem merge_skips_unlabelled (ctx : MergeCtx) (done : List MergeKey) (line : BatchLine)
    (q mm ss : List Char) (n : Int) (row : AnswerRow) (judge : PyVal)
    (hsplit : pySplit chBar line.custom_id = [q, mm, ss])
    (hint : pyStrToInt q = .ok n)
    (hlook : dictLookup ctx.answersIndex (n, mm, ss) = some row)
    (hmem : keyMem (.str mm, row.temperature, q) done = false)
    (hnorm : normalise_logprobs line.logprobs = .ok judge)
    (hext : extract_label_batches (pyStrip (dropBOM line.content)) = none) :
    processLine ctx done line = .ok .skip ∧
    ∀ (log : List EvalRec) (a : Nat), mergeRun ctx done [line] log a = .ok log a := by
  have hp : processLine ctx done line = .ok .skip := by
    unfold processLine
    simp only [hsplit, hint, hlook, hmem, Bool.false_eq_true, if_false, hnorm, hext]
  refine ⟨hp, fun log a => ?_⟩
  simp only [mergeRun, hp]

/-- C4 (witness): a concrete labelless judge text is dropped with the log and
counter unchanged. -/
theorem merge_skips_unlabelled_witness :
    processLine exCtx [] exLineNoLabel = .ok .skip ∧
    mergeRun exCtx [] [exLineNoLabel] [] 0 = .ok [] 0 := by
  have h := merge_skips_unlabelled exCtx [] exLineNoLabel ("0".data) ("m".data) ("s".data) 0
    { temperature := .int 0, answer := .str ("a".data) } (.arr [])
    (by rfl) (by rfl) (by rfl) (by rfl) (by rfl) (by rfl)
  exact ⟨h.1, h.2 [] 0⟩

/-- C5 (counterexample): both pollers' `load_done` parse every line with no
try/except, so one malformed line aborts the whole index construction — even
though the same well-formed line alone is indexed fine. -/
theorem load_done_poll_malformed_aborts :
    load_done_poll [goodLogLine, "not json".data] [] = .error .jsonDecodeError ∧
    load_done_poll [goodLogLine] [] = .ok [(.str ("m".data), .int 0, "1".data)] :=
  ⟨by rfl, by rfl⟩

/-- C5 (amended): only the submitter's `load_done` tolerates a line that is
not valid JSON — it is skipped and the remaining lines are still indexed;
both pollers abort on such a line, and even the submitter aborts on a line
that is valid JSON but lacks the key fields (`KeyError` is not caught). -/
theorem load_done_malformed_behaviour :
    (∀ (bad : List Char), jsonLoads bad = none →
      ∀ (pre post : List (List Char)) (acc : List (PyVal × PyVal × PyVal)),
        load_done_submit (pre ++ bad :: post) acc = load_done_submit (pre ++ post) acc) ∧
    (∀ (bad : List Char), jsonLoads bad = none →
      ∀ (pre rest : List (List Char)) (acc a : List (PyVal × PyVal × List Char)),
        load_done_poll pre acc = .ok a →
        load_done_poll (pre ++ bad :: rest) acc = .error .jsonDecodeError) ∧
    (∀ (rest : List (List Char)) (acc : List (PyVal × PyVal × PyVal)),
      load_done_submit (("\x7b\"x\": 1\x7d".data) :: rest) acc = .error .keyError) :=
  ⟨load_done_submit_skip_bad, load_done_poll_abort_on_bad, fun _ _ => by rfl⟩

/-- C5 (witness): the submitter's index skips a concrete non-JSON line and
still indexes the good line; a poller aborts on the same non-JSON line. -/
theorem load_done_malformed_behaviour_witness :
    load_done_submit [goodLogLine, "not json".data] [] = load_done_submit [goodLogLine] [] ∧
    load_done_poll ([] ++ ("not json".data) :: []) [] = .error .jsonDecodeError := by
  constructor
  · exact load_done_malformed_behaviour.1 ("not json".data) (by rfl) [goodLogLine] [] []
  · exact load_done_malformed_behaviour.2.1 ("not json".data) (by rfl) [] [] [] [] (by rfl)

/-- C6: when the polling loop ends on a terminal status other than
"completed", the poller exits before the merge: the result is an abort and
the evaluation log is exactly the one it started with. -/
theorem poller_aborts_without_append (statuses : List (List Char)) (s : List Char)
    (ctx : MergeCtx) (done : List MergeKey) (lines : List BatchLine) (log : List EvalRec)
    (hpoll : pollLoop statuses = some s)
    (hne : (s == "completed".data) = false) :
    pollerMain statuses ctx done lines log = .aborted s log := by
  unfold pollerMain
  rw [hpoll]
  simp only [hne, Bool.false_eq_true, if_false]

/-- C6 (witness): polling through two non-terminal statuses to "failed"
aborts with the log untouched. -/
theorem poller_aborts_without_append_witness :
    pollerMain ["validating".data, "in_progress".data, "failed".data] exCtx [] [exLine]
      [exRec] = .aborted ("failed".data) [exRec] :=
  poller_aborts_without_append _ _ exCtx [] [exLine] [exRec] (by rfl) (by rfl)

/-- C7: the submitter builds at most the CLI-supplied limit of requests
(at most `max limit 0` in general, hence at most `limit` whenever the limit
is non-negative), and every request comes from an answers-file row whose
identity (model, temperature, qid) is not in the existing dedup index. -/
theorem submitter_limit_and_unevaluated (ds : List QRec) (done : List (PyVal × PyVal × PyVal))
    (limit : Int) (rows : List SubmitRow) (reqs : List Request)
    (h : buildRequests ds done limit rows [] = .ok reqs) :
    (reqs.length : Int) ≤ max limit 0 ∧
    ∀ r ∈ reqs, ∃ row, row ∈ rows ∧
      submitKeyMem (.str row.model, row.temperature, .int row.qid) done = false ∧
      r.custom_id = encodeCustomId row.qid row.model row.setting := by
  constructor
  · simpa using buildRequests_length ds done limit rows [] reqs h
  · intro r hr
    rcases buildRequests_sound ds done limit rows [] reqs h r hr with hacc | hrow
    · simp at hacc
    · exact hrow

/-- C7 (witness): of two concrete rows, the already-evaluated one is skipped
and only the unevaluated one is sent, within the limit. -/
theorem submitter_limit_and_unevaluated_witness :
    (exReqs.length : Int) ≤ max 5 0 ∧
    ∀ r ∈ exReqs, ∃ row, row ∈ exRows ∧
      submitKeyMem (.str row.model, row.temperature, .int row.qid) exDoneSubmit = false ∧
      r.custom_id = encodeCustomId row.qid row.model row.setting :=
  submitter_limit_and_unevaluated exDs exDoneSubmit 5 exRows exReqs (by rfl)

/-- C8 (counterexample): a model name containing the separator makes the
correlation id split into four parts, so the merger's three-way unpacking
raises `ValueError` instead of recovering the encoded triple. -/
theorem custom_id_pipe_breaks_roundtrip :
    decodeCustomId (encodeCustomId 1 ("a|b".data) ("s".data)) = .error .valueError ∧
    (Except.error .valueError : Except PyExn (Int × List Char × List Char)) ≠
      .ok (1, "a|b".data, "s".data) :=
  ⟨by rfl, fun h => Except.noConfusion h⟩

/-- C8 (amended): provided the model and setting contain no separator, the
merge loop's split of a submitter-generated correlation id recovers exactly
the encoded (question id, model, setting) triple — the question id through
the `str`/`int` round trip — and that is the triple used for the answers
lookup. -/
theorem custom_id_roundtrip (qid : Int) (model setting : List Char)
    (hm : ∀ c ∈ model, (c == chBar) = false) (hs : ∀ c ∈ setting, (c == chBar) = false) :
    decodeCustomId (encodeCustomId qid model setting) = .ok (qid, model, setting) := by
  unfold decodeCustomId
  simp only [pySplit_encodeCustomId qid model setting hm hs, pyStrToInt_pyIntToStr]

/-- C8 (witness): a concrete separator-free triple round-trips. -/
theorem custom_id_roundtrip_witness :
    decodeCustomId (encodeCustomId 7 ("gpt".data) ("t07".data)) =
      .ok (7, "gpt".data, "t07".data) :=
  custom_id_roundtrip 7 ("gpt".data) ("t07".data) (by decide) (by decide)

/-- C9 (counterexample): neither implementation returns only the exact
labels.  `extract_label` of `poll_truth_p2.py` returns the arbitrary
lower-cased string from a JSON "label" field and raises `AttributeError`
when that field holds a non-string; and under `re.IGNORECASE`'s Unicode
equivalences the pattern letter i also matches dotless ı U+0131, so
`extract_label` of `poll_truthqa_batches.py` returns the non-keyword string
"hallucınated" on such input. -/
theorem extract_label_nonexact_or_raises :
    extract_label_p2 ("\x7b\"label\": \"maybe\"\x7d".data) = .ok (some ("maybe".data)) ∧
    ("maybe".data ≠ TRUTHFUL ∧ "maybe".data ≠ HALLUCINATED) ∧
    extract_label_p2 ("\x7b\"label\": 3\x7d".data) = .error .attributeError ∧
    extract_label_batches ("→ hallucınated".data) = some ("hallucınated".data) ∧
    ("hallucınated".data ≠ TRUTHFUL ∧ "hallucınated".data ≠ HALLUCINATED) :=
  ⟨by rfl, by decide, by rfl, by rfl, by decide⟩

/-- C9 (witness): a concrete all-ASCII judge text falls in the proved range. -/
theorem extract_label_batches_range_ascii_witness :
    (∀ c ∈ ("The answer is Truthful.".data), c.toNat < 128) ∧
    (extract_label_batches ("The answer is Truthful.".data) = none ∨
     extract_label_batches ("The answer is Truthful.".data) = some TRUTHFUL ∨
     extract_label_batches ("The answer is Truthful.".data) = some HALLUCINATED) :=
  ⟨by decide, extract_label_batches_range_ascii ("The answer is Truthful.".data) (by decide)⟩

/-- C10: `normalise_logprobs` does not preserve the alternatives'
log-probabilities: `utils.py` line 14 writes the literal list `["logprob"]`
instead of `alt["logprob"]`, so every rebuilt alternative carries the
constant `["logprob"]` rather than the input value (here `-2`). -/
theorem normalise_logprobs_drops_alt_logprob :
    normalise_logprobs c10LogProbs = .ok (.arr [.obj [
      ("token".data, .str ("He".data)),
      ("logprob".data, .int (-1)),
      ("top_alts".data, .arr [.obj [
        ("token".data, .str ("He".data)),
        ("logprob".data, .arr [.str ("logprob".data)])]])]]) ∧
    (PyVal.arr [.str ("logprob".data)] ≠ .int (-2)) :=
  ⟨by rfl, fun h => PyVal.noConfusion h⟩
